import Mathlib

/-
Verification of the caching subsystem of the youtubesnapshots repository.

The development shallowly embeds the three source modules:
  * app.py       : FastCache (two-tier blob/metadata cache) and StreamCache
  * localcache.py: LocalCache (filesystem-backed durable tier)
  * gcscache.py  : GCSCache (cloud-object-storage durable tier)

Python dicts are embedded as insertion-ordered association lists over
String keys; the deque access_order is a plain list (front = oldest).
Wall-clock instants are integers (seconds); timedelta(hours=24) = 86400 s,
timedelta(minutes=30) = 1800 s.  Calls into the durable backend made by
FastCache are passed in as explicit oracle values (the bytes the executor
call returned), which covers every possible backend state and schedule.
-/

namespace YTSnap

/-- Byte sequences (Python bytes) as lists of byte values. -/
abbrev Bytes := List Nat

/-! ## Python dict embedding (insertion-ordered association list) -/

/-- Dict lookup: d[k] when present, scanning entries in order. -/
def dictLookup {β : Type} (d : List (String × β)) (k : String) : Option β :=
  match d with
  | [] => none
  | (k', v) :: rest => if k' = k then some v else dictLookup rest k

/-- Dict assignment d[k] = v: replaces in place when the key is present,
otherwise appends at the end (Python insertion-order semantics). -/
def dictInsert {β : Type} (d : List (String × β)) (k : String) (v : β) :
    List (String × β) :=
  match d with
  | [] => [(k, v)]
  | (k', v') :: rest =>
    if k' = k then (k', v) :: rest else (k', v') :: dictInsert rest k v

/-- Dict deletion del d[k]: removes the first entry with key k. -/
def dictErase {β : Type} (d : List (String × β)) (k : String) :
    List (String × β) :=
  match d with
  | [] => []
  | (k', v') :: rest => if k' = k then rest else (k', v') :: dictErase rest k

/-- The keys of a dict, in order. -/
def dictKeys {β : Type} (d : List (String × β)) : List String :=
  d.map Prod.fst

/-- Removal of the first occurrence of an element, as deque.remove does. -/
def removeFirst (l : List String) (k : String) : List String :=
  match l with
  | [] => []
  | x :: rest => if x = k then rest else x :: removeFirst rest k

theorem dictLookup_insert_self {β : Type} (d : List (String × β)) (k : String) (v : β) :
    dictLookup (dictInsert d k v) k = some v := by
  induction d with
  | nil => simp [dictInsert, dictLookup]
  | cons hd tl ih =>
    obtain ⟨k', v'⟩ := hd
    by_cases h : k' = k
    · simp [dictInsert, dictLookup, h]
    · simp [dictInsert, dictLookup, h, ih]

theorem dictLookup_insert_ne {β : Type} (d : List (String × β)) (k k' : String) (v : β)
    (h : k' ≠ k) : dictLookup (dictInsert d k v) k' = dictLookup d k' := by
  have h2 : ¬ k = k' := fun hh => h hh.symm
  induction d with
  | nil => simp [dictInsert, dictLookup, h2]
  | cons hd tl ih =>
    obtain ⟨k0, v0⟩ := hd
    by_cases h0 : k0 = k
    · subst h0
      simp [dictInsert, dictLookup, h2]
    · simp only [dictInsert, if_neg h0]
      by_cases h1 : k0 = k'
      · simp [dictLookup, h1]
      · simp [dictLookup, h1, ih]

theorem dictInsert_length_le {β : Type} (d : List (String × β)) (k : String) (v : β) :
    (dictInsert d k v).length ≤ d.length + 1 := by
  induction d with
  | nil => simp [dictInsert]
  | cons hd tl ih =>
    obtain ⟨k0, v0⟩ := hd
    by_cases h0 : k0 = k
    · simp [dictInsert, h0]
    · simp only [dictInsert, if_neg h0, List.length_cons]
      omega

theorem dictKeys_count_erase_self {β : Type} (d : List (String × β)) (k : String) :
    (dictKeys (dictErase d k)).count k = (dictKeys d).count k - 1 := by
  induction d with
  | nil => simp [dictErase, dictKeys]
  | cons hd tl ih =>
    obtain ⟨k0, v0⟩ := hd
    by_cases h0 : k0 = k
    · subst h0
      simp [dictErase, dictKeys, List.count_cons]
    · have h1 : ¬ k = k0 := fun hh => h0 hh.symm
      simp only [dictErase, if_neg h0]
      simp only [dictKeys, List.map_cons, List.count_cons] at ih ⊢
      simp [h0, h1, ih]

theorem dictKeys_count_erase_ne {β : Type} (d : List (String × β)) (k k' : String)
    (h : k' ≠ k) : (dictKeys (dictErase d k)).count k' = (dictKeys d).count k' := by
  have h2 : ¬ k = k' := fun hh => h hh.symm
  induction d with
  | nil => simp [dictErase]
  | cons hd tl ih =>
    obtain ⟨k0, v0⟩ := hd
    by_cases h0 : k0 = k
    · subst h0
      simp [dictErase, dictKeys, List.count_cons, h2]
    · simp only [dictErase, if_neg h0]
      simp only [dictKeys, List.map_cons, List.count_cons] at ih ⊢
      simp [ih]

theorem dictKeys_count_insert_self {β : Type} (d : List (String × β)) (k : String) (v : β) :
    (dictKeys (dictInsert d k v)).count k ≤ (dictKeys d).count k + 1 := by
  induction d with
  | nil => simp [dictInsert, dictKeys]
  | cons hd tl ih =>
    obtain ⟨k0, v0⟩ := hd
    by_cases h0 : k0 = k
    · simp [dictInsert, h0, dictKeys, List.count_cons]
    · simp only [dictInsert, if_neg h0]
      simp only [dictKeys, List.map_cons, List.count_cons] at ih ⊢
      omega

theorem dictKeys_count_insert_ne {β : Type} (d : List (String × β)) (k k' : String) (v : β)
    (h : k' ≠ k) : (dictKeys (dictInsert d k v)).count k' = (dictKeys d).count k' := by
  have h2 : ¬ k = k' := fun hh => h hh.symm
  induction d with
  | nil => simp [dictInsert, dictKeys, List.count_cons, h2]
  | cons hd tl ih =>
    obtain ⟨k0, v0⟩ := hd
    by_cases h0 : k0 = k
    · subst h0
      simp [dictInsert, dictKeys, List.count_cons]
    · simp only [dictInsert, if_neg h0]
      simp only [dictKeys, List.map_cons, List.count_cons] at ih ⊢
      simp [ih]

theorem removeFirst_count_self (l : List String) (k : String) :
    (removeFirst l k).count k = l.count k - 1 := by
  induction l with
  | nil => simp [removeFirst]
  | cons x rest ih =>
    by_cases h : x = k
    · subst h
      simp [removeFirst, List.count_cons]
    · simp [removeFirst, h, List.count_cons, ih]

theorem removeFirst_count_ne (l : List String) (k k' : String) (h : k' ≠ k) :
    (removeFirst l k).count k' = l.count k' := by
  induction l with
  | nil => simp [removeFirst]
  | cons x rest ih =>
    by_cases h0 : x = k
    · subst h0
      simp [removeFirst, List.count_cons, h]
    · simp [removeFirst, h0, List.count_cons, ih]

/-! ## Metadata descriptors

A screenshot result descriptor (one element of the metadata list produced
by generate_screenshot in app.py).  Only the fields the claims depend on
are carried: the quality tier and the file name. -/

structure Desc where
  quality : String
  filename : String
deriving DecidableEq

/-! ## FastCache (app.py lines 35-148) -/

/-- State of the FastCache orchestrator (app.py __init__, lines 36-42). -/
structure FastCache where
  memory_cache : List (String × Bytes)
  metadata_cache : List (String × List Desc)
  access_order : List String
  hits : Nat
  misses : Nat
  memory_hits : Nat
  gcs_hits : Nat
deriving DecidableEq

/-- A fresh FastCache: empty mappings, zeroed counters. -/
def freshFastCache : FastCache :=
  { memory_cache := [], metadata_cache := [], access_order := []
    hits := 0, misses := 0, memory_hits := 0, gcs_hits := 0 }

/-- Blob cache key string (app.py line 46 and 91). -/
def cacheKey (videoId : String) (timestamp : Nat) (quality : String) : String :=
  videoId ++ "_" ++ toString timestamp ++ "_" ++ quality

/-- Metadata cache key string (app.py lines 110 and 133). -/
def metadataKey (videoId : String) (timestamp : Nat) : String :=
  videoId ++ "_" ++ toString timestamp ++ "_metadata"

/-- The eviction loop of FastCache._store_in_memory (app.py lines 81-84):
while the mapping holds at least max_memory_items = 100 entries, pop the
oldest key off access_order and delete it from the mapping if present.
When access_order runs dry the Python code would raise from popleft; the
total model returns the state unchanged there (unreachable under the
proved invariant). -/
def evictLoop (memory : List (String × Bytes)) :
    List String → List (String × Bytes) × List String
  | [] => (memory, [])
  | oldest :: rest =>
    if 100 ≤ memory.length then evictLoop (dictErase memory oldest) rest
    else (memory, oldest :: rest)

/-- FastCache._store_in_memory (app.py lines 78-87). -/
def storeInMemory (s : FastCache) (key : String) (data : Bytes) : FastCache :=
  let p := evictLoop s.memory_cache s.access_order
  { s with memory_cache := dictInsert p.1 key data
           access_order := p.2 ++ [key] }

/-- FastCache.get_screenshot (app.py lines 44-76).  The value the durable
tier returned for this key is passed in as gcsResult (the result of the
run_in_executor call of gcs_cache.get_cached_screenshot); quantifying over
it covers every durable-tier state and schedule.  Python treats an empty
byte string as falsy, so `if image_data:` sends both None and b"" to the
miss branch. -/
def getScreenshot (s : FastCache) (videoId : String) (timestamp : Nat)
    (quality : String) (gcsResult : Option Bytes) : Option Bytes × FastCache :=
  let key := cacheKey videoId timestamp quality
  match dictLookup s.memory_cache key with
  | some data =>
    (some data,
      { s with hits := s.hits + 1, memory_hits := s.memory_hits + 1
               access_order := removeFirst s.access_order key ++ [key] })
  | none =>
    match gcsResult with
    | some data =>
      if data ≠ [] then
        let s1 := storeInMemory s key data
        (some data, { s1 with hits := s1.hits + 1, gcs_hits := s1.gcs_hits + 1 })
      else
        (none, { s with misses := s.misses + 1 })
    | none => (none, { s with misses := s.misses + 1 })

/-- FastCache.store_screenshot (app.py lines 89-97): synchronous insert
into the memory tier; the durable write is a fire-and-forget background
task and does not touch the FastCache state. -/
def storeScreenshot (s : FastCache) (videoId : String) (timestamp : Nat)
    (quality : String) (data : Bytes) : FastCache :=
  storeInMemory s (cacheKey videoId timestamp quality) data

/-- FastCache.get_cached_metadata (app.py lines 108-129).  gcsResult is
the value returned by the durable tier for this key.  When the durable
value is truthy it is inserted into the memory mapping and, if the mapping
then exceeds 50 entries, next(iter(dict)) = the first-inserted key is
deleted. -/
def getCachedMetadata (s : FastCache) (videoId : String) (timestamp : Nat)
    (gcsResult : Option (List Desc)) : Option (List Desc) × FastCache :=
  let key := metadataKey videoId timestamp
  match dictLookup s.metadata_cache key with
  | some md => (some md, s)
  | none =>
    match gcsResult with
    | some md =>
      if md ≠ [] then
        let mc := dictInsert s.metadata_cache key md
        let mc2 :=
          if 50 < mc.length then
            match mc with
            | [] => mc
            | (k0, _) :: _ => dictErase mc k0
          else mc
        (some md, { s with metadata_cache := mc2 })
      else (some md, s)
    | none => (none, s)

/-- FastCache.store_metadata (app.py lines 131-139): synchronous memory
insert with no capacity check; the durable write is background only. -/
def storeMetadata (s : FastCache) (videoId : String) (timestamp : Nat)
    (md : List Desc) : FastCache :=
  { s with metadata_cache := dictInsert s.metadata_cache (metadataKey videoId timestamp) md }

/-- The fixed quality list of check_cache_parallel (app.py line 431). -/
def qualities : List String := ["ultra", "high", "medium", "low"]

/-- The gathered per-quality cache lookups of check_cache_parallel
(app.py lines 437-442), embedded sequentially in list order; gcsBlob maps
a blob cache key to the bytes the durable tier holds for it. -/
def gatherScreenshots (s : FastCache) (videoId : String) (timestamp : Nat)
    (gcsBlob : String → Option Bytes) :
    List String → List (Option Bytes) × FastCache
  | [] => ([], s)
  | q :: qs =>
    let p := getScreenshot s videoId timestamp q (gcsBlob (cacheKey videoId timestamp q))
    let rest := gatherScreenshots p.2 videoId timestamp gcsBlob qs
    (p.1 :: rest.1, rest.2)

/-- check_cache_parallel (app.py lines 429-451): fetch cached metadata;
if truthy, look up all four fixed qualities and return the metadata only
when every lookup produced a blob, else None. -/
def checkCacheParallel (s : FastCache) (videoId : String) (timestamp : Nat)
    (gcsMd : Option (List Desc)) (gcsBlob : String → Option Bytes) :
    Option (List Desc) × FastCache :=
  let pm := getCachedMetadata s videoId timestamp gcsMd
  match pm.1 with
  | some md =>
    if md ≠ [] then
      let pg := gatherScreenshots pm.2 videoId timestamp gcsBlob qualities
      if pg.1.all Option.isSome then (some md, pg.2) else (none, pg.2)
    else (none, pm.2)
  | none => (none, pm.2)

/-! ## Operation sequences over the blob tier (for the LRU invariant) -/

/-- One blob-tier call: storeScreenshot, or getScreenshot with the value
the durable tier returned for that call. -/
inductive CacheOp where
  | store (videoId : String) (timestamp : Nat) (quality : String) (data : Bytes)
  | load (videoId : String) (timestamp : Nat) (quality : String) (gcsResult : Option Bytes)

/-- Apply one blob-tier call to the FastCache state. -/
def applyOp (s : FastCache) : CacheOp → FastCache
  | .store v t q d => storeScreenshot s v t q d
  | .load v t q r => (getScreenshot s v t q r).2

/-- Run a sequence of blob-tier calls. -/
def runOps (s : FastCache) (ops : List CacheOp) : FastCache :=
  ops.foldl applyOp s

/-! ## Blob-tier structural invariant (claim C1) -/

/-- Invariant relating the blob mapping and the access-order deque: the
mapping respects the capacity of 100 and each key of the mapping occurs in
access_order at least as often as in the mapping. -/
def memOrdInv (memory : List (String × Bytes)) (order : List String) : Prop :=
  memory.length ≤ 100 ∧ ∀ k, (dictKeys memory).count k ≤ order.count k

theorem evictLoop_spec : ∀ (order : List String) (memory : List (String × Bytes)),
    (∀ k, (dictKeys memory).count k ≤ order.count k) →
    (evictLoop memory order).1.length < 100 ∧
      ∀ k, (dictKeys (evictLoop memory order).1).count k ≤
        (evictLoop memory order).2.count k := by
  intro order
  induction order with
  | nil =>
    intro memory h
    have hmem : memory = [] := by
      cases memory with
      | nil => rfl
      | cons hd tl =>
        exfalso
        have h1 := h hd.1
        simp [dictKeys, List.count_cons] at h1
    subst hmem
    simp [evictLoop, dictKeys]
  | cons o rest ih =>
    intro memory h
    by_cases hlen : 100 ≤ memory.length
    · have hsub : ∀ k, (dictKeys (dictErase memory o)).count k ≤ rest.count k := by
        intro k
        by_cases hk : k = o
        · subst hk
          have h1 := h k
          rw [dictKeys_count_erase_self]
          simp [List.count_cons] at h1
          omega
        · rw [dictKeys_count_erase_ne _ _ _ hk]
          have h1 := h k
          simp [List.count_cons, hk] at h1
          omega
      have hrec := ih (dictErase memory o) hsub
      simpa [evictLoop, hlen] using hrec
    · constructor
      · simp only [evictLoop, if_neg hlen]
        omega
      · simp only [evictLoop, if_neg hlen]
        exact h

theorem storeInMemory_inv (s : FastCache) (key : String) (data : Bytes)
    (h : memOrdInv s.memory_cache s.access_order) :
    memOrdInv (storeInMemory s key data).memory_cache
      (storeInMemory s key data).access_order := by
  obtain ⟨hlen, hcount⟩ := h
  have hspec := evictLoop_spec s.access_order s.memory_cache hcount
  constructor
  · have h1 := dictInsert_length_le (evictLoop s.memory_cache s.access_order).1 key data
    simp only [storeInMemory]
    omega
  · intro k
    simp only [storeInMemory]
    by_cases hk : k = key
    · subst hk
      have h1 := dictKeys_count_insert_self
        (evictLoop s.memory_cache s.access_order).1 k data
      have h2 := hspec.2 k
      simp [List.count_append, List.count_cons]
      omega
    · rw [dictKeys_count_insert_ne _ _ _ _ hk]
      have h2 := hspec.2 k
      simp [List.count_append, List.count_cons, hk]
      omega

theorem getScreenshot_inv (s : FastCache) (videoId : String) (timestamp : Nat)
    (quality : String) (gcsResult : Option Bytes)
    (h : memOrdInv s.memory_cache s.access_order) :
    memOrdInv (getScreenshot s videoId timestamp quality gcsResult).2.memory_cache
      (getScreenshot s videoId timestamp quality gcsResult).2.access_order := by
  obtain ⟨hlen, hcount⟩ := h
  simp only [getScreenshot]
  cases hmem : dictLookup s.memory_cache (cacheKey videoId timestamp quality) with
  | some data =>
    refine ⟨hlen, fun k => ?_⟩
    by_cases hk : k = cacheKey videoId timestamp quality
    · subst hk
      have h1 := removeFirst_count_self s.access_order (cacheKey videoId timestamp quality)
      have h2 := hcount (cacheKey videoId timestamp quality)
      simp [List.count_append, List.count_cons]
      omega
    · have h1 := removeFirst_count_ne s.access_order _ _ hk
      have h2 := hcount k
      simp [List.count_append, List.count_cons, hk]
      omega
  | none =>
    cases gcsResult with
    | some data =>
      by_cases hd : data ≠ []
      · simp only [if_pos hd]
        exact storeInMemory_inv s _ data ⟨hlen, hcount⟩
      · simp only [if_neg hd]
        exact ⟨hlen, hcount⟩
    | none => exact ⟨hlen, hcount⟩

theorem applyOp_inv (s : FastCache) (op : CacheOp)
    (h : memOrdInv s.memory_cache s.access_order) :
    memOrdInv (applyOp s op).memory_cache (applyOp s op).access_order := by
  cases op with
  | store v t q d => exact storeInMemory_inv s _ d h
  | load v t q r => exact getScreenshot_inv s v t q r h

theorem runOps_inv (ops : List CacheOp) : ∀ (s : FastCache),
    memOrdInv s.memory_cache s.access_order →
    memOrdInv (runOps s ops).memory_cache (runOps s ops).access_order := by
  induction ops with
  | nil => intro s h; exact h
  | cons op rest ih =>
    intro s h
    exact ih (applyOp s op) (applyOp_inv s op h)

/-- Claim C1 (amended): for every sequence of storeScreenshot and
getScreenshot calls starting from a fresh FastCache, the in-memory blob
mapping never holds more than 100 entries, and every key of the mapping
occurs in access_order; access_order however need not be a permutation of
the mapping keys (re-storing an existing key appends a duplicate). -/
theorem fastCache_capacity_and_access_order (ops : List CacheOp) :
    (runOps freshFastCache ops).memory_cache.length ≤ 100 ∧
      ∀ k, k ∈ dictKeys (runOps freshFastCache ops).memory_cache →
        k ∈ (runOps freshFastCache ops).access_order := by
  have hfresh : memOrdInv freshFastCache.memory_cache freshFastCache.access_order := by
    constructor
    · simp [freshFastCache]
    · intro k; simp [freshFastCache, dictKeys]
  have hinv := runOps_inv ops freshFastCache hfresh
  refine ⟨hinv.1, fun k hk => ?_⟩
  have h1 : 0 < (dictKeys (runOps freshFastCache ops).memory_cache).count k :=
    List.count_pos_iff.mpr hk
  have h2 := hinv.2 k
  exact List.count_pos_iff.mp (by omega)

/-- Claim C1 counterexample: calling storeScreenshot twice on the same key
from a fresh cache leaves that key twice in access_order although the
mapping holds it once, so access_order is not a permutation of the mapping
keys. -/
theorem fastCache_access_order_not_permutation :
    ((runOps freshFastCache
        [.store "v" 1 "high" [7], .store "v" 1 "high" [7]]).access_order.count
      (cacheKey "v" 1 "high") = 2) ∧
    ((dictKeys (runOps freshFastCache
        [.store "v" 1 "high" [7], .store "v" 1 "high" [7]]).memory_cache).count
      (cacheKey "v" 1 "high") = 1) := by
  decide

/-! ## Metadata-tier capacity (claim C3) -/

theorem dictErase_cons_self {β : Type} (k0 : String) (v0 : β) (tl : List (String × β)) :
    dictErase ((k0, v0) :: tl) k0 = tl := by
  simp [dictErase]

theorem getCachedMetadata_length_le (s : FastCache) (videoId : String)
    (timestamp : Nat) (gcsResult : Option (List Desc)) :
    (getCachedMetadata s videoId timestamp gcsResult).2.metadata_cache.length ≤
      max s.metadata_cache.length 50 := by
  simp only [getCachedMetadata]
  cases dictLookup s.metadata_cache (metadataKey videoId timestamp) with
  | some md => simp
  | none =>
    cases gcsResult with
    | none => simp
    | some md =>
      by_cases hmd : md ≠ []
      · simp only [if_pos hmd]
        have hlen := dictInsert_length_le s.metadata_cache
          (metadataKey videoId timestamp) md
        set mc := dictInsert s.metadata_cache (metadataKey videoId timestamp) md with hmc
        by_cases hcap : 50 < mc.length
        · cases hmc2 : mc with
          | nil => simp [hmc2] at hcap
          | cons hd tl =>
            obtain ⟨k0, v0⟩ := hd
            rw [hmc2] at hcap hlen
            simp only [if_pos hcap, dictErase_cons_self]
            simp at hlen
            omega
        · simp only [if_neg hcap]
          omega
      · simp only [if_neg hmd]
        simp

/-- Claim C3 (amended): storeMetadata performs no capacity check, so
sequences containing it can grow metadata_cache beyond 50 entries; only
getCachedMetadata bounds its own insertion: after any getCachedMetadata
call the mapping holds at most max(previous size, 50) entries (the
first-inserted key is evicted when the insertion pushes past 50), so
sequences of getCachedMetadata calls alone, from a fresh cache, never
exceed 50 entries. -/
theorem metadata_capacity_getCachedMetadata_only :
    (∀ (s : FastCache) (videoId : String) (timestamp : Nat)
        (gcsResult : Option (List Desc)),
      (getCachedMetadata s videoId timestamp gcsResult).2.metadata_cache.length ≤
        max s.metadata_cache.length 50) ∧
    (∀ (calls : List (String × Nat × Option (List Desc))),
      ((calls.foldl (fun s c => (getCachedMetadata s c.1 c.2.1 c.2.2).2)
          freshFastCache).metadata_cache.length ≤ 50)) := by
  refine ⟨fun s v t r => getCachedMetadata_length_le s v t r, fun calls => ?_⟩
  suffices h : ∀ (l : List (String × Nat × Option (List Desc))) (s : FastCache),
      s.metadata_cache.length ≤ 50 →
      ((l.foldl (fun s c => (getCachedMetadata s c.1 c.2.1 c.2.2).2)
          s).metadata_cache.length ≤ 50) by
    exact h calls freshFastCache (by simp [freshFastCache])
  intro l
  induction l with
  | nil => intro s hs; exact hs
  | cons c rest ih =>
    intro s hs
    refine ih _ ?_
    show (getCachedMetadata s c.1 c.2.1 c.2.2).2.metadata_cache.length ≤ 50
    have h1 := getCachedMetadata_length_le s c.1 c.2.1 c.2.2
    omega

/-- Claim C3 counterexample: 51 storeMetadata calls with distinct keys
from a fresh cache leave 51 entries in metadata_cache, exceeding the
stated capacity of 50. -/
theorem metadata_cache_exceeds_capacity :
    ((List.range 51).foldl
        (fun s i => storeMetadata s ("v" ++ toString i) 0 [⟨"high", "f.png"⟩])
        freshFastCache).metadata_cache.length = 51 := by
  decide

/-! ## Store-then-get round trip (claim C8) -/

/-- Claim C8: storeScreenshot immediately followed by getScreenshot on the
same key returns exactly the stored bytes, for every prior cache state and
every durable-tier response (the memory-tier insert is synchronous, so the
memory hit path fires and the durable tier is never consulted). -/
theorem store_then_get_returns_data (s : FastCache) (videoId : String)
    (timestamp : Nat) (quality : String) (data : Bytes) (gcsResult : Option Bytes) :
    (getScreenshot (storeScreenshot s videoId timestamp quality data)
        videoId timestamp quality gcsResult).1 = some data := by
  simp [getScreenshot, storeScreenshot, storeInMemory, dictLookup_insert_self]

/-! ## Empty durable blob handled as a miss (claim C10) -/

/-- Claim C10: when the durable tier returns a zero-length byte string for
a key that is not in the memory tier, get_screenshot returns None,
increments the miss counter, and leaves the memory mapping untouched. -/
theorem empty_durable_blob_is_miss (s : FastCache) (videoId : String)
    (timestamp : Nat) (quality : String)
    (h : dictLookup s.memory_cache (cacheKey videoId timestamp quality) = none) :
    getScreenshot s videoId timestamp quality (some []) =
      (none, { s with misses := s.misses + 1 }) := by
  simp [getScreenshot, h]

/-- Witness for claim C10 at a concrete state. -/
theorem empty_durable_blob_is_miss_witness :
    getScreenshot freshFastCache "v" 1 "high" (some []) =
      (none, { freshFastCache with misses := freshFastCache.misses + 1 }) :=
  empty_durable_blob_is_miss freshFastCache "v" 1 "high" rfl

/-! ## Coherence check (claim C4) -/

/-- Availability of a blob at a key: present in the memory tier, or held
nonempty by the durable tier. -/
def blobAvailable (s : FastCache) (gcsBlob : String → Option Bytes) (key : String) : Prop :=
  (dictLookup s.memory_cache key).isSome = true ∨
    ∃ d, gcsBlob key = some d ∧ d ≠ []

theorem evictLoop_of_lt (memory : List (String × Bytes)) (order : List String)
    (h : memory.length < 100) : evictLoop memory order = (memory, order) := by
  cases order with
  | nil => simp [evictLoop]
  | cons o rest => simp [evictLoop, Nat.not_le.mpr h]

theorem getScreenshot_spec (s : FastCache) (videoId : String) (timestamp : Nat)
    (quality : String) (r : Option Bytes) (hlen : s.memory_cache.length ≤ 99) :
    ((getScreenshot s videoId timestamp quality r).1.isSome = true ↔
      ((dictLookup s.memory_cache (cacheKey videoId timestamp quality)).isSome = true ∨
        ∃ d, r = some d ∧ d ≠ [])) ∧
    (∀ k, k ≠ cacheKey videoId timestamp quality →
      dictLookup (getScreenshot s videoId timestamp quality r).2.memory_cache k =
        dictLookup s.memory_cache k) ∧
    (getScreenshot s videoId timestamp quality r).2.memory_cache.length ≤
      s.memory_cache.length + 1 := by
  cases hm : dictLookup s.memory_cache (cacheKey videoId timestamp quality) with
  | some data =>
    refine ⟨?_, ?_, ?_⟩
    · simp [getScreenshot, hm]
    · intro k hk; simp [getScreenshot, hm]
    · simp [getScreenshot, hm]
  | none =>
    cases r with
    | none =>
      refine ⟨?_, ?_, ?_⟩
      · simp [getScreenshot, hm]
      · intro k hk; simp [getScreenshot, hm]
      · simp [getScreenshot, hm]
    | some data =>
      by_cases hd : data ≠ []
      · have hev := evictLoop_of_lt s.memory_cache s.access_order (by omega)
        have hins := dictInsert_length_le s.memory_cache
          (cacheKey videoId timestamp quality) data
        refine ⟨?_, ?_, ?_⟩
        · simp [getScreenshot, hm, hd]
        · intro k hk
          simp [getScreenshot, hm, hd, storeInMemory, hev,
            dictLookup_insert_ne _ _ _ _ hk]
        · simp [getScreenshot, hm, hd, storeInMemory, hev]
          omega
      · push_neg at hd
        subst hd
        refine ⟨?_, ?_, ?_⟩
        · simp [getScreenshot, hm]
        · intro k hk; simp [getScreenshot, hm]
        · simp [getScreenshot, hm]

theorem gatherScreenshots_spec (videoId : String) (timestamp : Nat)
    (gcsBlob : String → Option Bytes) :
    ∀ (qs : List String) (s : FastCache),
      s.memory_cache.length + qs.length ≤ 100 →
      (qs.map (cacheKey videoId timestamp)).Nodup →
      (((gatherScreenshots s videoId timestamp gcsBlob qs).1.all Option.isSome = true ↔
          ∀ q ∈ qs, blobAvailable s gcsBlob (cacheKey videoId timestamp q)) ∧
        (∀ k, k ∉ qs.map (cacheKey videoId timestamp) →
          dictLookup (gatherScreenshots s videoId timestamp gcsBlob qs).2.memory_cache k =
            dictLookup s.memory_cache k) ∧
        (gatherScreenshots s videoId timestamp gcsBlob qs).2.memory_cache.length ≤
          s.memory_cache.length + qs.length) := by
  intro qs
  induction qs with
  | nil =>
    intro s hlen hnd
    refine ⟨by simp [gatherScreenshots], fun k hk => rfl, by simp [gatherScreenshots]⟩
  | cons q qs ih =>
    intro s hlen hnd
    have hlen1 : s.memory_cache.length ≤ 99 := by
      simp only [List.length_cons] at hlen
      omega
    obtain ⟨hres, hpres, hlen2⟩ := getScreenshot_spec s videoId timestamp q
      (gcsBlob (cacheKey videoId timestamp q)) hlen1
    rw [List.map_cons, List.nodup_cons] at hnd
    have hkey_not := hnd.1
    have hnd1 := hnd.2
    have hlen1' :
        (getScreenshot s videoId timestamp q
          (gcsBlob (cacheKey videoId timestamp q))).2.memory_cache.length +
          qs.length ≤ 100 := by
      simp only [List.length_cons] at hlen
      omega
    obtain ⟨ihres, ihpres, ihlen⟩ :=
      ih (getScreenshot s videoId timestamp q (gcsBlob (cacheKey videoId timestamp q))).2
        hlen1' hnd1
    have hkne : ∀ q' ∈ qs, cacheKey videoId timestamp q' ≠ cacheKey videoId timestamp q := by
      intro q' hq' he
      exact hkey_not (he ▸ List.mem_map_of_mem _ hq')
    have havail : ∀ q' ∈ qs,
        (blobAvailable (getScreenshot s videoId timestamp q
            (gcsBlob (cacheKey videoId timestamp q))).2 gcsBlob
          (cacheKey videoId timestamp q') ↔
          blobAvailable s gcsBlob (cacheKey videoId timestamp q')) := by
      intro q' hq'
      unfold blobAvailable
      rw [hpres _ (hkne q' hq')]
    refine ⟨?_, ?_, ?_⟩
    · simp only [gatherScreenshots, List.all_cons, Bool.and_eq_true]
      rw [hres, ihres, List.forall_mem_cons]
      constructor
      · rintro ⟨h1, h2⟩
        exact ⟨h1, fun q' hq' => (havail q' hq').mp (h2 q' hq')⟩
      · rintro ⟨h1, h2⟩
        exact ⟨h1, fun q' hq' => (havail q' hq').mpr (h2 q' hq')⟩
    · intro k hk
      simp only [List.map_cons, List.mem_cons, not_or] at hk
      simp only [gatherScreenshots]
      rw [ihpres k hk.2, hpres k hk.1]
    · simp only [gatherScreenshots, List.length_cons]
      omega

theorem getCachedMetadata_memory (s : FastCache) (videoId : String)
    (timestamp : Nat) (gcsResult : Option (List Desc)) :
    (getCachedMetadata s videoId timestamp gcsResult).2.memory_cache = s.memory_cache := by
  simp only [getCachedMetadata]
  cases dictLookup s.metadata_cache (metadataKey videoId timestamp) with
  | some md => rfl
  | none =>
    cases gcsResult with
    | none => rfl
    | some md =>
      by_cases hmd : md ≠ [] <;> simp [hmd]

theorem cacheKey_ne_of_length_ne (videoId : String) (timestamp : Nat)
    (q1 q2 : String) (h : q1.length ≠ q2.length) :
    cacheKey videoId timestamp q1 ≠ cacheKey videoId timestamp q2 := by
  intro he
  have h1 := congrArg String.length he
  simp [cacheKey, String.length_append] at h1
  omega

theorem qualities_keys_nodup (videoId : String) (timestamp : Nat) :
    (qualities.map (cacheKey videoId timestamp)).Nodup := by
  have hUH := cacheKey_ne_of_length_ne videoId timestamp "ultra" "high" (by decide)
  have hUM := cacheKey_ne_of_length_ne videoId timestamp "ultra" "medium" (by decide)
  have hUL := cacheKey_ne_of_length_ne videoId timestamp "ultra" "low" (by decide)
  have hHM := cacheKey_ne_of_length_ne videoId timestamp "high" "medium" (by decide)
  have hHL := cacheKey_ne_of_length_ne videoId timestamp "high" "low" (by decide)
  have hML := cacheKey_ne_of_length_ne videoId timestamp "medium" "low" (by decide)
  simp [qualities, List.nodup_cons, List.mem_cons]
  exact ⟨⟨hUH, hUM, hUL⟩, ⟨hHM, hHL⟩, hML⟩

/-- Claim C4 (amended): when cached metadata exists (and is nonempty), the
coherence check issues one getScreenshot lookup per quality of the fixed
set ultra/high/medium/low, regardless of which qualities the metadata
lists, and reports a complete hit (returning the metadata) if and only if
all four lookups find a blob; otherwise, and in particular when metadata
lists qualities beyond what the durable store holds, it reports a full
miss. -/
theorem checkCacheParallel_fixed_qualities (s : FastCache) (videoId : String)
    (timestamp : Nat) (gcsMd : Option (List Desc)) (gcsBlob : String → Option Bytes)
    (hlen : s.memory_cache.length + 4 ≤ 100) :
    ((checkCacheParallel s videoId timestamp gcsMd gcsBlob).1 ≠ none ↔
      ((∃ md, (getCachedMetadata s videoId timestamp gcsMd).1 = some md ∧ md ≠ []) ∧
        ∀ q ∈ qualities, blobAvailable s gcsBlob (cacheKey videoId timestamp q))) ∧
    ((checkCacheParallel s videoId timestamp gcsMd gcsBlob).1 ≠ none →
      (checkCacheParallel s videoId timestamp gcsMd gcsBlob).1 =
        (getCachedMetadata s videoId timestamp gcsMd).1) := by
  have hmem := getCachedMetadata_memory s videoId timestamp gcsMd
  have hglen :
      (getCachedMetadata s videoId timestamp gcsMd).2.memory_cache.length +
        qualities.length ≤ 100 := by
    rw [hmem]
    simpa [qualities] using hlen
  obtain ⟨hgres, hgpres, hglen2⟩ := gatherScreenshots_spec videoId timestamp gcsBlob
    qualities (getCachedMetadata s videoId timestamp gcsMd).2 hglen
    (qualities_keys_nodup videoId timestamp)
  have havail : ∀ q ∈ qualities,
      (blobAvailable (getCachedMetadata s videoId timestamp gcsMd).2 gcsBlob
          (cacheKey videoId timestamp q) ↔
        blobAvailable s gcsBlob (cacheKey videoId timestamp q)) := by
    intro q hq
    unfold blobAvailable
    rw [hmem]
  cases hpm : (getCachedMetadata s videoId timestamp gcsMd).1 with
  | none =>
    constructor
    · simp [checkCacheParallel, hpm]
    · simp [checkCacheParallel, hpm]
  | some md =>
    by_cases hmd : md ≠ []
    · constructor
      · simp only [checkCacheParallel, hpm, if_pos hmd]
        by_cases hall :
            ((gatherScreenshots (getCachedMetadata s videoId timestamp gcsMd).2
              videoId timestamp gcsBlob qualities).1.all Option.isSome) = true
        · simp only [if_pos hall]
          have h2 := hgres.mp hall
          constructor
          · intro _
            exact ⟨⟨md, rfl, hmd⟩, fun q hq => (havail q hq).mp (h2 q hq)⟩
          · intro _
            simp
        · simp only [if_neg hall]
          constructor
          · intro hcontra
            exact absurd rfl hcontra
          · rintro ⟨h1, h2⟩
            exact absurd (hgres.mpr fun q hq => (havail q hq).mpr (h2 q hq)) hall
      · simp only [checkCacheParallel, hpm, if_pos hmd]
        by_cases hall :
            ((gatherScreenshots (getCachedMetadata s videoId timestamp gcsMd).2
              videoId timestamp gcsBlob qualities).1.all Option.isSome) = true
        · rw [if_pos hall]
          intro _
          rfl
        · rw [if_neg hall]
          intro h
          exact absurd rfl h
    · push_neg at hmd
      subst hmd
      constructor
      · simp [checkCacheParallel, hpm]
      · simp [checkCacheParallel, hpm]

/-- Witness for claim C4 at a concrete input: fresh cache, durable
metadata present, all four quality blobs held by the durable tier. -/
theorem checkCacheParallel_fixed_qualities_witness :
    (checkCacheParallel freshFastCache "v" 1 (some [⟨"high", "f.png"⟩])
      (fun k => if k = "v_1_ultra" || k = "v_1_high" || k = "v_1_medium" ||
          k = "v_1_low" then some [1] else none)).1 ≠ none := by
  refine (checkCacheParallel_fixed_qualities freshFastCache "v" 1
      (some [⟨"high", "f.png"⟩])
      (fun k => if k = "v_1_ultra" || k = "v_1_high" || k = "v_1_medium" ||
          k = "v_1_low" then some [1] else none)
      (by simp [freshFastCache])).1.mpr ⟨⟨[⟨"high", "f.png"⟩], by decide, by decide⟩, ?_⟩
  intro q hq
  simp only [qualities, List.mem_cons, List.not_mem_nil, or_false] at hq
  rcases hq with rfl | rfl | rfl | rfl
  · exact Or.inr ⟨[1], by decide, by decide⟩
  · exact Or.inr ⟨[1], by decide, by decide⟩
  · exact Or.inr ⟨[1], by decide, by decide⟩
  · exact Or.inr ⟨[1], by decide, by decide⟩

/-- Claim C4 counterexample: metadata lists qualities ultra and high, and
both listed blobs are retrievable, yet check_cache_parallel reports a full
miss because it also demands medium and low. -/
theorem checkCacheParallel_ignores_metadata_qualities :
    ((checkCacheParallel freshFastCache "v" 1
        (some [⟨"ultra", "a.png"⟩, ⟨"high", "b.png"⟩])
        (fun k => if k = "v_1_ultra" || k = "v_1_high" then some [1] else none)).1
      = none) ∧
    (∀ d ∈ [Desc.mk "ultra" "a.png", Desc.mk "high" "b.png"],
      blobAvailable freshFastCache
        (fun k => if k = "v_1_ultra" || k = "v_1_high" then some [1] else none)
        (cacheKey "v" 1 d.quality)) := by
  constructor
  · decide
  · intro d hd
    simp only [List.mem_cons, List.not_mem_nil, or_false] at hd
    rcases hd with rfl | rfl
    · exact Or.inr ⟨[1], by decide, by decide⟩
    · exact Or.inr ⟨[1], by decide, by decide⟩

/-! ## LocalCache (localcache.py): filesystem-backed durable tier

The filesystem is embedded as two association lists mapping file paths to
(payload, mtime) entries: one for the screenshots directory and one for
the metadata directory.  Metadata files hold the parsed descriptor list
(json round-trip); their serialized byte content is modelled separately by
the serializers below.  cache_duration = timedelta(hours=24) = 86400 s. -/

/-- Screenshot cache file path (localcache.py lines 26-29). -/
def localShotPath (videoId : String) (timestamp : Nat) (quality : String) : String :=
  "cache/screenshots/" ++ videoId ++ "_" ++ toString timestamp ++ "_" ++ quality ++ ".png"

/-- Metadata cache file path (localcache.py lines 31-34). -/
def localMetaPath (videoId : String) (timestamp : Nat) : String :=
  "cache/metadata/" ++ videoId ++ "_" ++ toString timestamp ++ ".json"

/-- State of the LocalCache durable store: entries are
(path, payload, mtime-seconds). -/
structure LocalCacheState where
  shots : List (String × Bytes × Int)
  metas : List (String × List Desc × Int)
deriving DecidableEq

/-- LocalCache.get_cached_screenshot (localcache.py lines 51-81): missing
file yields None; a file whose age now - mtime is at least 24 h is
expired, removed, and reported None; otherwise the bytes are returned. -/
def localGetCachedScreenshot (now : Int) (s : LocalCacheState) (videoId : String)
    (timestamp : Nat) (quality : String) : Option Bytes × LocalCacheState :=
  let path := localShotPath videoId timestamp quality
  match dictLookup s.shots path with
  | none => (none, s)
  | some (data, mtime) =>
    if 86400 ≤ now - mtime then (none, { s with shots := dictErase s.shots path })
    else (some data, s)

/-- LocalCache.cache_screenshot (localcache.py lines 94-108): writes the
raw bytes, the file mtime becoming the current time. -/
def localCacheScreenshot (now : Int) (s : LocalCacheState) (videoId : String)
    (timestamp : Nat) (quality : String) (data : Bytes) : LocalCacheState :=
  { s with shots := dictInsert s.shots (localShotPath videoId timestamp quality) (data, now) }

/-- LocalCache.get_cached_metadata (localcache.py lines 122-151): same
absence and 24 h expiry handling as screenshots, then the stored JSON is
parsed back into the descriptor list. -/
def localGetCachedMetadata (now : Int) (s : LocalCacheState) (videoId : String)
    (timestamp : Nat) : Option (List Desc) × LocalCacheState :=
  let path := localMetaPath videoId timestamp
  match dictLookup s.metas path with
  | none => (none, s)
  | some (md, mtime) =>
    if 86400 ≤ now - mtime then (none, { s with metas := dictErase s.metas path })
    else (some md, s)

/-- LocalCache.cache_metadata (localcache.py lines 163-177): stores the
descriptor list, the file mtime becoming the current time. -/
def localCacheMetadata (now : Int) (s : LocalCacheState) (videoId : String)
    (timestamp : Nat) (md : List Desc) : LocalCacheState :=
  { s with metas := dictInsert s.metas (localMetaPath videoId timestamp) (md, now) }

/-- One directory pass of LocalCache.cleanup_expired_cache (localcache.py
lines 233-254): a file is deleted, and counted, exactly when its mtime is
strictly before the cutoff now - 24 h. -/
def cleanupPass {α : Type} (cutoff : Int) :
    List (String × α × Int) → Nat × List (String × α × Int)
  | [] => (0, [])
  | (path, payload, mtime) :: rest =>
    let p := cleanupPass cutoff rest
    if mtime < cutoff then (p.1 + 1, p.2)
    else (p.1, (path, payload, mtime) :: p.2)

/-- LocalCache.cleanup_expired_cache (localcache.py lines 226-261): passes
over the screenshots directory then the metadata directory, returning the
number of files removed. -/
def localCleanup (now : Int) (s : LocalCacheState) : Nat × LocalCacheState :=
  let cutoff := now - 86400
  let p1 := cleanupPass cutoff s.shots
  let p2 := cleanupPass cutoff s.metas
  (p1.1 + p2.1, { shots := p1.2, metas := p2.2 })

/-! ## GCSCache (gcscache.py): cloud-object-storage durable tier -/

/-- Observable creation-time metadata of a stored object: available as a
timestamp, persistently unavailable (blob.time_created stays None after
reload), or raising when read. -/
inductive TimeMeta where
  | avail (t : Int)
  | unavail
  | raises
deriving DecidableEq

/-- Blob object name for a screenshot (gcscache.py lines 22-24). -/
def gcsShotKey (videoId : String) (timestamp : Nat) (quality : String) : String :=
  "screenshots/" ++ videoId ++ "_" ++ toString timestamp ++ "_" ++ quality ++ ".png"

/-- Blob object name for metadata (gcscache.py lines 26-28). -/
def gcsMetaKey (videoId : String) (timestamp : Nat) : String :=
  "metadata/" ++ videoId ++ "_" ++ toString timestamp ++ ".json"

/-- State of the GCSCache durable store: object name to
(payload, creation-time metadata). -/
structure GCSCacheState where
  shotObjs : List (String × Bytes × TimeMeta)
  metaObjs : List (String × List Desc × TimeMeta)
deriving DecidableEq

/-- GCSCache.get_cached_screenshot (gcscache.py lines 30-87): absent blob
yields None; with an available creation time, an age of at least 24 h
yields None (the object is NOT deleted), else the bytes; with no creation
time the bytes are returned without any TTL comparison (lines 66-67); if
reading the time metadata raises, the fallback path (lines 74-83) still
downloads and returns the bytes. -/
def gcsGetCachedScreenshot (now : Int) (s : GCSCacheState) (videoId : String)
    (timestamp : Nat) (quality : String) : Option Bytes :=
  match dictLookup s.shotObjs (gcsShotKey videoId timestamp quality) with
  | none => none
  | some (data, tm) =>
    match tm with
    | .avail t0 => if 86400 ≤ now - t0 then none else some data
    | .unavail => some data
    | .raises => some data

/-- GCSCache.cache_screenshot (gcscache.py lines 100-108): uploads the raw
bytes; the backend records the current time as creation time. -/
def gcsCacheScreenshot (now : Int) (s : GCSCacheState) (videoId : String)
    (timestamp : Nat) (quality : String) (data : Bytes) : GCSCacheState :=
  { s with shotObjs :=
      dictInsert s.shotObjs (gcsShotKey videoId timestamp quality) (data, .avail now) }

/-- GCSCache.get_cached_metadata (gcscache.py lines 122-156): as for
screenshots, except that an exception while processing the blob metadata
returns None (lines 150-152) with no fallback download. -/
def gcsGetCachedMetadata (now : Int) (s : GCSCacheState) (videoId : String)
    (timestamp : Nat) : Option (List Desc) :=
  match dictLookup s.metaObjs (gcsMetaKey videoId timestamp) with
  | none => none
  | some (md, tm) =>
    match tm with
    | .avail t0 => if 86400 ≤ now - t0 then none else some md
    | .unavail => some md
    | .raises => none

/-- GCSCache.cache_metadata (gcscache.py lines 168-176): uploads the
serialized descriptor list; the backend records the current time. -/
def gcsCacheMetadata (now : Int) (s : GCSCacheState) (videoId : String)
    (timestamp : Nat) (md : List Desc) : GCSCacheState :=
  { s with metaObjs :=
      dictInsert s.metaObjs (gcsMetaKey videoId timestamp) (md, .avail now) }

/-- One listing pass of GCSCache.cleanup_expired_cache (gcscache.py lines
232-247): an object is deleted, and counted, exactly when its creation
time is available and strictly before the cutoff; objects without a
creation time are skipped. -/
def gcsCleanupPass {α : Type} (cutoff : Int) :
    List (String × α × TimeMeta) → Nat × List (String × α × TimeMeta)
  | [] => (0, [])
  | (key, payload, tm) :: rest =>
    let p := gcsCleanupPass cutoff rest
    match tm with
    | .avail t0 =>
      if t0 < cutoff then (p.1 + 1, p.2)
      else (p.1, (key, payload, .avail t0) :: p.2)
    | .unavail => (p.1, (key, payload, .unavail) :: p.2)
    | .raises => (p.1, (key, payload, .raises) :: p.2)

/-- GCSCache.cleanup_expired_cache (gcscache.py lines 225-254). -/
def gcsCleanup (now : Int) (s : GCSCacheState) : Nat × GCSCacheState :=
  let cutoff := now - 86400
  let p1 := gcsCleanupPass cutoff s.shotObjs
  let p2 := gcsCleanupPass cutoff s.metaObjs
  (p1.1 + p2.1, { shotObjs := p1.2, metaObjs := p2.2 })

/-! ## Durable-tier TTL expiry (claim C5) -/

/-- Claim C5: for both backends and both kinds of entry, the durable read
operations return None when the entry does not exist, and also whenever
the entry exists with a creation time making its age now - creationTime
at least the 24 h ttl (in particular at creationTime = now - ttl - 1 s);
and an unconditional re-store at the same key at the current time is
immediately retrievable.  For the GCS backend this covers every entry
whose creation time the backend reports; entries whose creation time is
unreadable take the separate paths described by claim C9. -/
theorem durable_ttl_expiry (now : Int) (sL : LocalCacheState) (sG : GCSCacheState)
    (videoId : String) (timestamp : Nat) (quality : String) (data : Bytes)
    (md : List Desc) :
    (dictLookup sL.shots (localShotPath videoId timestamp quality) = none →
      (localGetCachedScreenshot now sL videoId timestamp quality).1 = none) ∧
    (dictLookup sL.metas (localMetaPath videoId timestamp) = none →
      (localGetCachedMetadata now sL videoId timestamp).1 = none) ∧
    (dictLookup sG.shotObjs (gcsShotKey videoId timestamp quality) = none →
      gcsGetCachedScreenshot now sG videoId timestamp quality = none) ∧
    (dictLookup sG.metaObjs (gcsMetaKey videoId timestamp) = none →
      gcsGetCachedMetadata now sG videoId timestamp = none) ∧
    (∀ mtime, dictLookup sL.shots (localShotPath videoId timestamp quality) =
        some (data, mtime) → 86400 ≤ now - mtime →
      (localGetCachedScreenshot now sL videoId timestamp quality).1 = none) ∧
    (∀ mtime, dictLookup sL.metas (localMetaPath videoId timestamp) =
        some (md, mtime) → 86400 ≤ now - mtime →
      (localGetCachedMetadata now sL videoId timestamp).1 = none) ∧
    (∀ t0, dictLookup sG.shotObjs (gcsShotKey videoId timestamp quality) =
        some (data, .avail t0) → 86400 ≤ now - t0 →
      gcsGetCachedScreenshot now sG videoId timestamp quality = none) ∧
    (∀ t0, dictLookup sG.metaObjs (gcsMetaKey videoId timestamp) =
        some (md, .avail t0) → 86400 ≤ now - t0 →
      gcsGetCachedMetadata now sG videoId timestamp = none) ∧
    (localGetCachedScreenshot now
      (localCacheScreenshot now sL videoId timestamp quality data)
      videoId timestamp quality).1 = some data ∧
    (localGetCachedMetadata now
      (localCacheMetadata now sL videoId timestamp md) videoId timestamp).1 = some md ∧
    gcsGetCachedScreenshot now
      (gcsCacheScreenshot now sG videoId timestamp quality data)
      videoId timestamp quality = some data ∧
    gcsGetCachedMetadata now
      (gcsCacheMetadata now sG videoId timestamp md) videoId timestamp = some md := by
  have hfresh : ¬ (86400 : Int) ≤ now - now := by omega
  refine ⟨?_, ?_, ?_, ?_, ?_, ?_, ?_, ?_, ?_, ?_, ?_, ?_⟩
  · intro h
    simp [localGetCachedScreenshot, h]
  · intro h
    simp [localGetCachedMetadata, h]
  · intro h
    simp [gcsGetCachedScreenshot, h]
  · intro h
    simp [gcsGetCachedMetadata, h]
  · intro mtime h hage
    simp [localGetCachedScreenshot, h, hage]
  · intro mtime h hage
    simp [localGetCachedMetadata, h, hage]
  · intro t0 h hage
    simp [gcsGetCachedScreenshot, h, hage]
  · intro t0 h hage
    simp [gcsGetCachedMetadata, h, hage]
  · simp [localGetCachedScreenshot, localCacheScreenshot,
      dictLookup_insert_self, hfresh]
  · simp [localGetCachedMetadata, localCacheMetadata,
      dictLookup_insert_self, hfresh]
  · simp [gcsGetCachedScreenshot, gcsCacheScreenshot,
      dictLookup_insert_self, hfresh]
  · simp [gcsGetCachedMetadata, gcsCacheMetadata,
      dictLookup_insert_self, hfresh]

/-- Witness for claim C5: concrete stores at time 200000 hold entries for
video id v created at 113599 = 200000 - 86401 (the ttl + 1 s instance) and
hold nothing for video id w; all reads of w and all reads of the expired v
entries report absent, and re-stores of v at the current time are
immediately retrievable. -/
theorem durable_ttl_expiry_witness :
    (localGetCachedScreenshot 200000
      ⟨[("cache/screenshots/v_1_high.png", [7], 113599)],
        [("cache/metadata/v_1.json", [⟨"high", "f.png"⟩], 113599)]⟩
      "w" 1 "high").1 = none ∧
    (localGetCachedMetadata 200000
      ⟨[("cache/screenshots/v_1_high.png", [7], 113599)],
        [("cache/metadata/v_1.json", [⟨"high", "f.png"⟩], 113599)]⟩ "w" 1).1 = none ∧
    gcsGetCachedScreenshot 200000
      ⟨[("screenshots/v_1_high.png", [7], .avail 113599)],
        [("metadata/v_1.json", [⟨"high", "f.png"⟩], .avail 113599)]⟩
      "w" 1 "high" = none ∧
    gcsGetCachedMetadata 200000
      ⟨[("screenshots/v_1_high.png", [7], .avail 113599)],
        [("metadata/v_1.json", [⟨"high", "f.png"⟩], .avail 113599)]⟩ "w" 1 = none ∧
    (localGetCachedScreenshot 200000
      ⟨[("cache/screenshots/v_1_high.png", [7], 113599)],
        [("cache/metadata/v_1.json", [⟨"high", "f.png"⟩], 113599)]⟩
      "v" 1 "high").1 = none ∧
    (localGetCachedMetadata 200000
      ⟨[("cache/screenshots/v_1_high.png", [7], 113599)],
        [("cache/metadata/v_1.json", [⟨"high", "f.png"⟩], 113599)]⟩ "v" 1).1 = none ∧
    gcsGetCachedScreenshot 200000
      ⟨[("screenshots/v_1_high.png", [7], .avail 113599)],
        [("metadata/v_1.json", [⟨"high", "f.png"⟩], .avail 113599)]⟩
      "v" 1 "high" = none ∧
    gcsGetCachedMetadata 200000
      ⟨[("screenshots/v_1_high.png", [7], .avail 113599)],
        [("metadata/v_1.json", [⟨"high", "f.png"⟩], .avail 113599)]⟩ "v" 1 = none ∧
    (localGetCachedScreenshot 200000
      (localCacheScreenshot 200000
        ⟨[("cache/screenshots/v_1_high.png", [7], 113599)],
          [("cache/metadata/v_1.json", [⟨"high", "f.png"⟩], 113599)]⟩
        "v" 1 "high" [7]) "v" 1 "high").1 = some [7] ∧
    (localGetCachedMetadata 200000
      (localCacheMetadata 200000
        ⟨[("cache/screenshots/v_1_high.png", [7], 113599)],
          [("cache/metadata/v_1.json", [⟨"high", "f.png"⟩], 113599)]⟩
        "v" 1 [⟨"high", "f.png"⟩]) "v" 1).1 = some [⟨"high", "f.png"⟩] ∧
    gcsGetCachedScreenshot 200000
      (gcsCacheScreenshot 200000
        ⟨[("screenshots/v_1_high.png", [7], .avail 113599)],
          [("metadata/v_1.json", [⟨"high", "f.png"⟩], .avail 113599)]⟩
        "v" 1 "high" [7]) "v" 1 "high" = some [7] ∧
    gcsGetCachedMetadata 200000
      (gcsCacheMetadata 200000
        ⟨[("screenshots/v_1_high.png", [7], .avail 113599)],
          [("metadata/v_1.json", [⟨"high", "f.png"⟩], .avail 113599)]⟩
        "v" 1 [⟨"high", "f.png"⟩]) "v" 1 = some [⟨"high", "f.png"⟩] := by
  obtain ⟨hA1, hA2, hA3, hA4, _, _, _, _, _, _, _, _⟩ :=
    durable_ttl_expiry 200000
      ⟨[("cache/screenshots/v_1_high.png", [7], 113599)],
        [("cache/metadata/v_1.json", [⟨"high", "f.png"⟩], 113599)]⟩
      ⟨[("screenshots/v_1_high.png", [7], .avail 113599)],
        [("metadata/v_1.json", [⟨"high", "f.png"⟩], .avail 113599)]⟩
      "w" 1 "high" [7] [⟨"high", "f.png"⟩]
  obtain ⟨_, _, _, _, hB1, hB2, hB3, hB4, hC1, hC2, hC3, hC4⟩ :=
    durable_ttl_expiry 200000
      ⟨[("cache/screenshots/v_1_high.png", [7], 113599)],
        [("cache/metadata/v_1.json", [⟨"high", "f.png"⟩], 113599)]⟩
      ⟨[("screenshots/v_1_high.png", [7], .avail 113599)],
        [("metadata/v_1.json", [⟨"high", "f.png"⟩], .avail 113599)]⟩
      "v" 1 "high" [7] [⟨"high", "f.png"⟩]
  exact ⟨hA1 (by decide), hA2 (by decide), hA3 (by decide), hA4 (by decide),
    hB1 113599 (by decide) (by decide), hB2 113599 (by decide) (by decide),
    hB3 113599 (by decide) (by decide), hB4 113599 (by decide) (by decide),
    hC1, hC2, hC3, hC4⟩

/-! ## GCS reads without creation-time metadata (claim C9) -/

/-- Claim C9: when a stored blob exists but its creation-time metadata is
unavailable, or reading that metadata raises, GCSCache.get_cached_screenshot
returns the bytes at every current time now, performing no TTL comparison;
in particular a blob arbitrarily older than the 24 h ttl is served as a
hit. -/
theorem gcs_missing_time_skips_ttl (now : Int) (s : GCSCacheState)
    (videoId : String) (timestamp : Nat) (quality : String) (data : Bytes)
    (tm : TimeMeta)
    (hobj : dictLookup s.shotObjs (gcsShotKey videoId timestamp quality) =
      some (data, tm))
    (htm : tm = TimeMeta.unavail ∨ tm = TimeMeta.raises) :
    gcsGetCachedScreenshot now s videoId timestamp quality = some data := by
  rcases htm with rfl | rfl <;> simp [gcsGetCachedScreenshot, hobj]

/-- Witness for claim C9: a blob with no readable creation time is served
as a hit even at an arbitrarily late time. -/
theorem gcs_missing_time_skips_ttl_witness :
    gcsGetCachedScreenshot 99999999
      ⟨[("screenshots/v_1_high.png", [7], TimeMeta.unavail)], []⟩
      "v" 1 "high" = some [7] :=
  gcs_missing_time_skips_ttl 99999999
    ⟨[("screenshots/v_1_high.png", [7], TimeMeta.unavail)], []⟩
    "v" 1 "high" [7] TimeMeta.unavail (by decide) (Or.inl rfl)

/-! ## Cleanup of expired entries (claim C6) -/

theorem cleanupPass_mem {α : Type} (cutoff : Int) (l : List (String × α × Int))
    (p : String × α × Int) :
    p ∈ (cleanupPass cutoff l).2 ↔ p ∈ l ∧ ¬ p.2.2 < cutoff := by
  induction l with
  | nil => simp [cleanupPass]
  | cons e rest ih =>
    obtain ⟨k, v, mt⟩ := e
    by_cases hmt : mt < cutoff
    · simp only [cleanupPass, if_pos hmt]
      rw [ih]
      constructor
      · rintro ⟨h1, h2⟩
        exact ⟨List.mem_cons_of_mem _ h1, h2⟩
      · rintro ⟨h1, h2⟩
        rcases List.mem_cons.mp h1 with rfl | h1
        · exact absurd hmt h2
        · exact ⟨h1, h2⟩
    · simp only [cleanupPass, if_neg hmt, List.mem_cons]
      rw [ih]
      constructor
      · rintro (rfl | ⟨h1, h2⟩)
        · exact ⟨Or.inl rfl, hmt⟩
        · exact ⟨Or.inr h1, h2⟩
      · rintro ⟨h1, h2⟩
        rcases h1 with rfl | h1
        · exact Or.inl rfl
        · exact Or.inr ⟨h1, h2⟩

theorem cleanupPass_count {α : Type} (cutoff : Int) (l : List (String × α × Int)) :
    (cleanupPass cutoff l).1 = l.countP (fun p => decide (p.2.2 < cutoff)) := by
  induction l with
  | nil => simp [cleanupPass]
  | cons e rest ih =>
    obtain ⟨k, v, mt⟩ := e
    by_cases hmt : mt < cutoff
    · simp [cleanupPass, if_pos hmt, List.countP_cons, hmt, ih]
    · simp [cleanupPass, if_neg hmt, List.countP_cons, hmt, ih]

theorem gcsCleanupPass_mem {α : Type} (cutoff : Int)
    (l : List (String × α × TimeMeta)) (p : String × α × TimeMeta) :
    p ∈ (gcsCleanupPass cutoff l).2 ↔
      p ∈ l ∧ ∀ t0, p.2.2 = TimeMeta.avail t0 → ¬ t0 < cutoff := by
  induction l with
  | nil => simp [gcsCleanupPass]
  | cons e rest ih =>
    obtain ⟨k, v, tm⟩ := e
    cases tm with
    | avail t0 =>
      by_cases ht : t0 < cutoff
      · simp only [gcsCleanupPass, if_pos ht]
        rw [ih]
        constructor
        · rintro ⟨h1, h2⟩
          exact ⟨List.mem_cons_of_mem _ h1, h2⟩
        · rintro ⟨h1, h2⟩
          rcases List.mem_cons.mp h1 with rfl | h1
          · exact absurd ht (h2 t0 rfl)
          · exact ⟨h1, h2⟩
      · simp only [gcsCleanupPass, if_neg ht, List.mem_cons]
        rw [ih]
        constructor
        · rintro (rfl | ⟨h1, h2⟩)
          · refine ⟨Or.inl rfl, ?_⟩
            intro t1 h1
            cases h1
            exact ht
          · exact ⟨Or.inr h1, h2⟩
        · rintro ⟨h1, h2⟩
          rcases h1 with rfl | h1
          · exact Or.inl rfl
          · exact Or.inr ⟨h1, h2⟩
    | unavail =>
      simp only [gcsCleanupPass, List.mem_cons]
      rw [ih]
      constructor
      · rintro (rfl | ⟨h1, h2⟩)
        · refine ⟨Or.inl rfl, ?_⟩
          intro t1 h1
          cases h1
        · exact ⟨Or.inr h1, h2⟩
      · rintro ⟨h1, h2⟩
        rcases h1 with rfl | h1
        · exact Or.inl rfl
        · exact Or.inr ⟨h1, h2⟩
    | raises =>
      simp only [gcsCleanupPass, List.mem_cons]
      rw [ih]
      constructor
      · rintro (rfl | ⟨h1, h2⟩)
        · refine ⟨Or.inl rfl, ?_⟩
          intro t1 h1
          cases h1
        · exact ⟨Or.inr h1, h2⟩
      · rintro ⟨h1, h2⟩
        rcases h1 with rfl | h1
        · exact Or.inl rfl
        · exact Or.inr ⟨h1, h2⟩

theorem gcsCleanupPass_count {α : Type} (cutoff : Int)
    (l : List (String × α × TimeMeta)) :
    (gcsCleanupPass cutoff l).1 = l.countP (fun p =>
      match p.2.2 with
      | TimeMeta.avail t0 => decide (t0 < cutoff)
      | _ => false) := by
  induction l with
  | nil => simp [gcsCleanupPass]
  | cons e rest ih =>
    obtain ⟨k, v, tm⟩ := e
    cases tm with
    | avail t0 =>
      by_cases ht : t0 < cutoff
      · simp [gcsCleanupPass, if_pos ht, List.countP_cons, ht, ih]
      · simp [gcsCleanupPass, if_neg ht, List.countP_cons, ht, ih]
    | unavail => simp [gcsCleanupPass, List.countP_cons, ih]
    | raises => simp [gcsCleanupPass, List.countP_cons, ih]

/-- Claim C6 (amended): cleanup_expired_cache enumerates all stored blobs
and metadata entries and deletes exactly those whose age is STRICTLY
greater than the 24 h ttl (creation/modification time before now - ttl),
returning the number removed; an entry whose age equals the ttl exactly is
retained (for the GCS backend, objects with no creation time are also
retained). -/
theorem cleanup_removes_strictly_expired (now : Int) (sL : LocalCacheState)
    (sG : GCSCacheState) :
    ((∀ p, p ∈ (localCleanup now sL).2.shots ↔
        p ∈ sL.shots ∧ now - p.2.2 ≤ 86400) ∧
      (∀ p, p ∈ (localCleanup now sL).2.metas ↔
        p ∈ sL.metas ∧ now - p.2.2 ≤ 86400) ∧
      (localCleanup now sL).1 =
        sL.shots.countP (fun p => decide (86400 < now - p.2.2)) +
          sL.metas.countP (fun p => decide (86400 < now - p.2.2))) ∧
    ((∀ p, p ∈ (gcsCleanup now sG).2.shotObjs ↔
        p ∈ sG.shotObjs ∧ ∀ t0, p.2.2 = TimeMeta.avail t0 → now - t0 ≤ 86400) ∧
      (∀ p, p ∈ (gcsCleanup now sG).2.metaObjs ↔
        p ∈ sG.metaObjs ∧ ∀ t0, p.2.2 = TimeMeta.avail t0 → now - t0 ≤ 86400) ∧
      (gcsCleanup now sG).1 =
        sG.shotObjs.countP (fun p =>
          match p.2.2 with
          | TimeMeta.avail t0 => decide (86400 < now - t0)
          | _ => false) +
          sG.metaObjs.countP (fun p =>
            match p.2.2 with
            | TimeMeta.avail t0 => decide (86400 < now - t0)
            | _ => false)) := by
  have hloc : ∀ (x : Int), x < now - 86400 ↔ 86400 < now - x := by
    intro x
    omega
  refine ⟨⟨?_, ?_, ?_⟩, ⟨?_, ?_, ?_⟩⟩
  · intro p
    rw [show (localCleanup now sL).2.shots = (cleanupPass (now - 86400) sL.shots).2
      from rfl]
    rw [cleanupPass_mem]
    constructor
    · rintro ⟨h1, h2⟩
      exact ⟨h1, by omega⟩
    · rintro ⟨h1, h2⟩
      exact ⟨h1, by omega⟩
  · intro p
    rw [show (localCleanup now sL).2.metas = (cleanupPass (now - 86400) sL.metas).2
      from rfl]
    rw [cleanupPass_mem]
    constructor
    · rintro ⟨h1, h2⟩
      exact ⟨h1, by omega⟩
    · rintro ⟨h1, h2⟩
      exact ⟨h1, by omega⟩
  · rw [show (localCleanup now sL).1 =
      (cleanupPass (now - 86400) sL.shots).1 + (cleanupPass (now - 86400) sL.metas).1
      from rfl]
    rw [cleanupPass_count, cleanupPass_count]
    congr 1
    · refine List.countP_congr ?_
      intro p _
      simp [decide_eq_decide]
      omega
    · refine List.countP_congr ?_
      intro p _
      simp [decide_eq_decide]
      omega
  · intro p
    rw [show (gcsCleanup now sG).2.shotObjs =
      (gcsCleanupPass (now - 86400) sG.shotObjs).2 from rfl]
    rw [gcsCleanupPass_mem]
    constructor
    · rintro ⟨h1, h2⟩
      refine ⟨h1, fun t0 ht0 => ?_⟩
      have := h2 t0 ht0
      omega
    · rintro ⟨h1, h2⟩
      refine ⟨h1, fun t0 ht0 => ?_⟩
      have := h2 t0 ht0
      omega
  · intro p
    rw [show (gcsCleanup now sG).2.metaObjs =
      (gcsCleanupPass (now - 86400) sG.metaObjs).2 from rfl]
    rw [gcsCleanupPass_mem]
    constructor
    · rintro ⟨h1, h2⟩
      refine ⟨h1, fun t0 ht0 => ?_⟩
      have := h2 t0 ht0
      omega
    · rintro ⟨h1, h2⟩
      refine ⟨h1, fun t0 ht0 => ?_⟩
      have := h2 t0 ht0
      omega
  · rw [show (gcsCleanup now sG).1 =
      (gcsCleanupPass (now - 86400) sG.shotObjs).1 +
        (gcsCleanupPass (now - 86400) sG.metaObjs).1 from rfl]
    rw [gcsCleanupPass_count, gcsCleanupPass_count]
    congr 1
    · refine List.countP_congr ?_
      intro p _
      cases p.2.2 with
      | avail t0 => simp [decide_eq_decide]; omega
      | unavail => rfl
      | raises => rfl
    · refine List.countP_congr ?_
      intro p _
      cases p.2.2 with
      | avail t0 => simp [decide_eq_decide]; omega
      | unavail => rfl
      | raises => rfl

/-- Claim C6 counterexample: an entry whose age equals the ttl exactly
(mtime 113600 at now 200000, age = 86400 s) is NOT deleted by cleanup and
is not counted, although the read path already reports it absent. -/
theorem cleanup_retains_entry_at_exact_ttl :
    (localCleanup 200000
      ⟨[("cache/screenshots/v_1_high.png", [7], 113600)], []⟩).1 = 0 ∧
    (localCleanup 200000
      ⟨[("cache/screenshots/v_1_high.png", [7], 113600)], []⟩).2 =
      ⟨[("cache/screenshots/v_1_high.png", [7], 113600)], []⟩ ∧
    (localGetCachedScreenshot 200000
      ⟨[("cache/screenshots/v_1_high.png", [7], 113600)], []⟩ "v" 1 "high").1 =
      none ∧
    (gcsCleanup 200000
      ⟨[("screenshots/v_1_high.png", [7], TimeMeta.avail 113600)], []⟩).1 = 0 := by
  decide

/-! ## JSON serialization (claim C2)

LocalCache.cache_metadata writes json.dump(metadata, f, indent=2) while
GCSCache.cache_metadata writes json.dumps(metadata) (compact, default
separators).  The two encoders of Python json are embedded below over a
JSON value type; descriptor dicts map to objects. -/

inductive Json where
  | null
  | bool (b : Bool)
  | num (n : Int)
  | str (s : String)
  | arr (items : List Json)
  | obj (fields : List (String × Json))

/-- Escape of one character inside a JSON string literal (ensure_ascii
default; the characters used by this system are plain ASCII). -/
def escChar (c : Char) : String :=
  if c = '"' then "\\\""
  else if c = '\\' then "\\\\"
  else if c = '\n' then "\\n"
  else if c = '\t' then "\\t"
  else if c = '\r' then "\\r"
  else String.singleton c

/-- Escape of a JSON string body. -/
def escapeJson (s : String) : String :=
  String.join (s.data.map escChar)

/-- Indentation of a nesting level at indent=2: 2*level spaces. -/
def indentStr (level : Nat) : String :=
  String.mk (List.replicate (2 * level) ' ')

mutual

/-- Python json.dumps with default separators: items joined by a comma
and a space, keys and values joined by a colon and a space. -/
def jsonDumps : Json → String
  | .null => "null"
  | .bool b => if b then "true" else "false"
  | .num n => toString n
  | .str s => "\"" ++ escapeJson s ++ "\""
  | .arr items => "[" ++ jsonDumpsItems items ++ "]"
  | .obj fields => "\x7b" ++ jsonDumpsFields fields ++ "\x7d"

/-- Comma-and-space separated serialization of array items. -/
def jsonDumpsItems : List Json → String
  | [] => ""
  | [x] => jsonDumps x
  | x :: y :: rest => jsonDumps x ++ ", " ++ jsonDumpsItems (y :: rest)

/-- Comma-and-space separated serialization of object fields. -/
def jsonDumpsFields : List (String × Json) → String
  | [] => ""
  | [(k, v)] => "\"" ++ escapeJson k ++ "\": " ++ jsonDumps v
  | (k, v) :: f :: rest =>
    "\"" ++ escapeJson k ++ "\": " ++ jsonDumps v ++ ", " ++
      jsonDumpsFields (f :: rest)

end

mutual

/-- Python json.dump/json.dumps with indent=2: containers break onto
lines, items separated by a comma and a newline, each item indented by its
level; empty containers collapse. -/
def jsonDumpsInd (level : Nat) : Json → String
  | .null => "null"
  | .bool b => if b then "true" else "false"
  | .num n => toString n
  | .str s => "\"" ++ escapeJson s ++ "\""
  | .arr [] => "[]"
  | .arr (x :: xs) =>
    "[\n" ++ jsonDumpsIndItems (level + 1) (x :: xs) ++ "\n" ++
      indentStr level ++ "]"
  | .obj [] => "\x7b\x7d"
  | .obj (f :: fs) =>
    "\x7b\n" ++ jsonDumpsIndFields (level + 1) (f :: fs) ++ "\n" ++
      indentStr level ++ "\x7d"

/-- Indented array items, one per line. -/
def jsonDumpsIndItems (level : Nat) : List Json → String
  | [] => ""
  | [x] => indentStr level ++ jsonDumpsInd level x
  | x :: y :: rest =>
    indentStr level ++ jsonDumpsInd level x ++ ",\n" ++
      jsonDumpsIndItems level (y :: rest)

/-- Indented object fields, one per line. -/
def jsonDumpsIndFields (level : Nat) : List (String × Json) → String
  | [] => ""
  | [(k, v)] =>
    indentStr level ++ "\"" ++ escapeJson k ++ "\": " ++ jsonDumpsInd level v
  | (k, v) :: f :: rest =>
    indentStr level ++ "\"" ++ escapeJson k ++ "\": " ++ jsonDumpsInd level v ++
      ",\n" ++ jsonDumpsIndFields level (f :: rest)

end

/-- JSON object of one descriptor dict. -/
def descJson (d : Desc) : Json :=
  .obj [("quality", .str d.quality), ("filename", .str d.filename)]

/-- The bytes (as a string) LocalCache.cache_metadata writes for a
descriptor list (localcache.py line 173: json.dump(metadata, f, indent=2)). -/
def localMetadataSerialized (md : List Desc) : String :=
  jsonDumpsInd 0 (.arr (md.map descJson))

/-- The bytes (as a string) GCSCache.cache_metadata uploads for a
descriptor list (gcscache.py line 173: json.dumps(metadata)). -/
def gcsMetadataSerialized (md : List Desc) : String :=
  jsonDumps (.arr (md.map descJson))

/-- Claim C2 (amended): putBlob stores byte-identical content in both
backends for every input (both write the raw image bytes unchanged, under
the same derived name component); putMetadata does NOT: the filesystem
backend serializes with indent=2 while the cloud backend serializes
compactly, so the stored metadata bytes differ whenever the two encodings
differ (any non-empty record list). -/
theorem blob_content_backend_identical (nowL nowG : Int) (sL : LocalCacheState)
    (sG : GCSCacheState) (videoId : String) (timestamp : Nat) (quality : String)
    (data : Bytes) :
    dictLookup (localCacheScreenshot nowL sL videoId timestamp quality data).shots
        (localShotPath videoId timestamp quality) = some (data, nowL) ∧
    dictLookup (gcsCacheScreenshot nowG sG videoId timestamp quality data).shotObjs
        (gcsShotKey videoId timestamp quality) = some (data, TimeMeta.avail nowG) := by
  constructor
  · simp [localCacheScreenshot, dictLookup_insert_self]
  · simp [gcsCacheScreenshot, dictLookup_insert_self]

/-- Claim C2 counterexample: for a one-element descriptor list the two
backends store different metadata bytes (indented versus compact JSON). -/
theorem metadata_serialization_differs :
    localMetadataSerialized [⟨"high", "f.png"⟩] ≠
      gcsMetadataSerialized [⟨"high", "f.png"⟩] := by
  decide

/-! ## StreamCache (app.py lines 152-177)

The stream-URL cache maps a video id to (streams payload, creation time);
cache_duration = timedelta(minutes=30) = 1800 s, max_items = 50.  The
payload type is abstract. -/

/-- StreamCache.get_streams (app.py lines 158-165): a present entry
younger than 30 minutes is returned; a stale entry is deleted and None
returned. -/
def getStreams {σ : Type} (now : Int) (cache : List (String × σ × Int))
    (videoId : String) : Option σ × List (String × σ × Int) :=
  match dictLookup cache videoId with
  | some (st, t0) =>
    if now - t0 < 1800 then (some st, cache)
    else (none, dictErase cache videoId)
  | none => (none, cache)

/-- The running minimum of min(keys, key = timestamp): replaced only on a
strictly smaller timestamp, so the first minimal entry in iteration order
wins, as Python min does. -/
def minTsAux {σ : Type} : List (String × σ × Int) → String × Int → String × Int
  | [], best => best
  | (k, _, t) :: rest, best =>
    if t < best.2 then minTsAux rest (k, t) else minTsAux rest best

/-- The (key, timestamp) of the entry with the globally smallest creation
timestamp (app.py line 171); arbitrary on an empty cache, which the caller
never hits since it only scans at len >= 50. -/
def minTsPair {σ : Type} : List (String × σ × Int) → String × Int
  | [] => ("", 0)
  | (k, _, t) :: rest => minTsAux rest (k, t)

/-- StreamCache.cache_streams (app.py lines 167-177): when at capacity,
delete the entry with the smallest creation timestamp, then insert or
overwrite the video id with the current time. -/
def cacheStreams {σ : Type} (now : Int) (cache : List (String × σ × Int))
    (videoId : String) (streams : σ) : List (String × σ × Int) :=
  let c1 := if 50 ≤ cache.length then dictErase cache (minTsPair cache).1 else cache
  dictInsert c1 videoId (streams, now)

theorem minTsAux_le {σ : Type} :
    ∀ (l : List (String × σ × Int)) (best : String × Int),
      (minTsAux l best).2 ≤ best.2 ∧ ∀ p ∈ l, (minTsAux l best).2 ≤ p.2.2 := by
  intro l
  induction l with
  | nil =>
    intro best
    exact ⟨le_refl _, by simp⟩
  | cons e rest ih =>
    intro best
    obtain ⟨k, v, t⟩ := e
    by_cases ht : t < best.2
    · simp only [minTsAux, if_pos ht]
      obtain ⟨h1, h2⟩ := ih (k, t)
      refine ⟨by simp at h1 ⊢; omega, ?_⟩
      intro p hp
      rcases List.mem_cons.mp hp with rfl | hp
      · simpa using h1
      · exact h2 p hp
    · simp only [minTsAux, if_neg ht]
      obtain ⟨h1, h2⟩ := ih best
      refine ⟨h1, ?_⟩
      intro p hp
      rcases List.mem_cons.mp hp with rfl | hp
      · simp
        omega
      · exact h2 p hp

theorem minTsPair_le {σ : Type} (l : List (String × σ × Int)) :
    ∀ p ∈ l, (minTsPair l).2 ≤ p.2.2 := by
  cases l with
  | nil => simp
  | cons e rest =>
    obtain ⟨k, v, t⟩ := e
    intro p hp
    obtain ⟨h1, h2⟩ := minTsAux_le rest (k, t)
    rcases List.mem_cons.mp hp with rfl | hp
    · simpa [minTsPair] using h1
    · exact h2 p hp

set_option maxRecDepth 40000 in
/-- Claim C7: inserting 51 distinct video ids at strictly increasing
times into a fresh stream cache leaves exactly 50 entries with the
first-inserted (smallest-timestamp) id absent and all later ids present;
and in general every insertion at capacity first deletes the entry whose
creation timestamp is minimal over the whole cache, then inserts the new
entry at the current time. -/
theorem streamCache_eviction :
    (((List.range 51).foldl
        (fun c i => cacheStreams (Int.ofNat i) c ("v" ++ toString i) (0 : Nat))
        ([] : List (String × Nat × Int))).length = 50 ∧
      dictLookup ((List.range 51).foldl
        (fun c i => cacheStreams (Int.ofNat i) c ("v" ++ toString i) (0 : Nat))
        ([] : List (String × Nat × Int))) "v0" = none ∧
      ((List.range 50).all (fun i =>
        (dictLookup ((List.range 51).foldl
          (fun c i => cacheStreams (Int.ofNat i) c ("v" ++ toString i) (0 : Nat))
          ([] : List (String × Nat × Int))) ("v" ++ toString (i + 1))).isSome)) =
        true) ∧
    (∀ (σ : Type) (now : Int) (cache : List (String × σ × Int))
        (videoId : String) (st : σ),
      50 ≤ cache.length →
      cacheStreams now cache videoId st =
        dictInsert (dictErase cache (minTsPair cache).1) videoId (st, now) ∧
      ∀ p ∈ cache, (minTsPair cache).2 ≤ p.2.2) := by
  refine ⟨⟨by decide, by decide, by decide⟩, ?_⟩
  intro σ now cache videoId st hcap
  refine ⟨?_, minTsPair_le cache⟩
  simp [cacheStreams, if_pos hcap]

/-- Witness for claim C7 at a concrete 50-entry cache. -/
theorem streamCache_eviction_witness :
    cacheStreams 100
      ((List.range 50).map (fun i => ("v" ++ toString i, (0 : Nat), Int.ofNat i)))
      "w" 0 =
      dictInsert
        (dictErase
          ((List.range 50).map
            (fun i => ("v" ++ toString i, (0 : Nat), Int.ofNat i)))
          (minTsPair ((List.range 50).map
            (fun i => ("v" ++ toString i, (0 : Nat), Int.ofNat i)))).1)
        "w" (0, 100) ∧
    ∀ p ∈ (List.range 50).map (fun i => ("v" ++ toString i, (0 : Nat), Int.ofNat i)),
      (minTsPair ((List.range 50).map
        (fun i => ("v" ++ toString i, (0 : Nat), Int.ofNat i)))).2 ≤ p.2.2 :=
  streamCache_eviction.2 Nat 100
    ((List.range 50).map (fun i => ("v" ++ toString i, (0 : Nat), Int.ofNat i)))
    "w" 0 (by decide)

end YTSnap
